import Mathlib

/-!
# Verification of the nFlC multi-chunk LZO1X decompressor

Shallow embedding of `src/nflc_decomp/nflc_tool.cpp`:

* `LZO1X.decompress` embeds `LZO1XDecompressor::decompress` (lines 87-274).
  The goto-structured C loop becomes a step machine driven by fuel; each
  `Phase` names a position in the control flow (`top` = line 121 loop head,
  `firstLit` = the `first_literal_run` label, `inMatch` = line 165 inner loop
  head, `matchDone` / `matchNext` = the corresponding labels).
* Bytes are `Nat` (each < 256 in real inputs); `size_t` wraparound subtraction
  (the code relies on it for the unsigned lookbehind comparison) is modelled
  by `LZO1X.sub64`.
* Source reads are instrumented: a read of `src` outside `[0, srcLen)` - which
  is undefined behaviour in the C program - yields the distinguished result
  `Res.FAULT`.  All checked reads/writes are modelled exactly as the code
  orders its checks.
* `NFlC.parseChunks`, `NFlC.decompressSingle`, `NFlC.decompressChunked`,
  `NFlC.extractRaw` and `NFlC.decompress` embed the container layer
  (lines 316-560).
-/

namespace LZO1X

/-- Result codes of `LZO1XDecompressor::Result`, plus two instrumentation
outcomes: `FAULT` marks a source-buffer read outside `[src, src+srcLen)`
(undefined behaviour in the C program), `TIMEOUT` marks fuel exhaustion of
the step machine (unreachable for the fuel chosen by `decompress`). -/
inductive Res where
  | OK
  | INPUT_OVERRUN
  | OUTPUT_OVERRUN
  | LOOKBEHIND_OVERRUN
  | INVALID_DATA
  | FAULT
  | TIMEOUT
deriving DecidableEq

/-- Control-flow positions of the decoder loop (the C labels / loop heads). -/
inductive Phase where
  | start
  | top (t : Nat)
  | firstLit
  | inMatch (t : Nat)
  | matchDone
  | matchNext (t : Nat)
deriving DecidableEq

/-- Machine state: phase, input cursor `ip` (index into `src`), and the
bytes written so far (`out` is the prefix `dst[0 .. op)`). -/
structure St where
  ph : Phase
  ip : Nat
  out : List Nat
deriving DecidableEq

/-- One step of the machine either returns (result code and the bytes written
at that moment) or continues in a new state. -/
inductive StepOut where
  | ret (r : Res × List Nat)
  | cont (s : St)
deriving DecidableEq

/-- 64-bit (`size_t`) wraparound subtraction. -/
def sub64 (a b : Nat) : Nat :=
  (a + (2 ^ 64 - b % 2 ^ 64)) % 2 ^ 64

/-- Outcome of a zero-run length-extension loop
(`while (*ip == 0) { t += 255; ip++; if (ip >= ipEnd) return INPUT_OVERRUN; }`,
lines 125-129 / 181-185 / 200-204). -/
inductive ScanRes where
  | fault
  | overrun
  | done (acc b ip2 : Nat)
deriving DecidableEq

/-- The zero-run scan over the suffix `src.drop i`, carrying the absolute
cursor `i`.  The C loop reads `*ip` BEFORE any bounds check, so an empty
suffix is a `fault`; once a zero byte is consumed the check `ip >= ipEnd`
does run before the next read.  `done acc b ip2` means: `acc` = 255 * number
of zero bytes, `b` = first non-zero byte (consumed), `ip2` = cursor after it. -/
def scanCore : List Nat → Nat → Nat → ScanRes
  | [], _, _ => .fault
  | b :: rest, acc, i =>
    if b = 0 then
      match rest with
      | [] => .overrun
      | _ :: _ => scanCore rest (acc + 255) (i + 1)
    else .done acc b (i + 1)

/-- Byte-at-a-time overlapping lookbehind copy: `n` times append
`dst[pos]` and advance `pos` (lines 244-249, and the explicit 3- and 2-byte
copies at 156-158 / 230-231).  Source and destination may overlap. -/
def lbCopy (out : List Nat) (pos n : Nat) : List Nat :=
  match n with
  | 0 => out
  | m + 1 => lbCopy (out ++ [out.getD pos 0]) (pos + 1) m

/-- Validate-and-copy for a match: the lookbehind check
`mPos >= (size_t)(op - dst)` (lines 151/225/237) precedes the output check
`op + mLen > opEnd` (lines 155/229/242) which precedes the copy; afterwards
control reaches `match_done`. -/
def matchCopy (cap ip : Nat) (out : List Nat) (pos n : Nat) : StepOut :=
  if out.length ≤ pos then .ret (.LOOKBEHIND_OVERRUN, out)
  else if cap < out.length + n then .ret (.OUTPUT_OVERRUN, out)
  else .cont ⟨.matchDone, ip, lbCopy out pos n⟩

/-- Literal-run copy (lines 132-139): `t += 3`, output check, input check,
copy, then fall into `first_literal_run`. -/
def litRun (src : List Nat) (cap : Nat) (out : List Nat) (t ip : Nat) : StepOut :=
  if cap < out.length + (t + 3) then .ret (.OUTPUT_OVERRUN, out)
  else if src.length < ip + (t + 3) then .ret (.INPUT_OVERRUN, out)
  else .cont ⟨.firstLit, ip + (t + 3), out ++ (src.drop ip).take (t + 3)⟩

/-- Tail of an M3 match (lines 188-192): `mLen` already includes `+ 2`;
check 2 distance bytes, decode the distance from them, copy. -/
def m3Rest (src : List Nat) (cap : Nat) (out : List Nat) (n ip2 : Nat) : StepOut :=
  if src.length < ip2 + 2 then .ret (.INPUT_OVERRUN, out)
  else
    matchCopy cap (ip2 + 2) out
      (sub64 (sub64 out.length 1)
        ((src.getD ip2 0 >>> 2) + (src.getD (ip2 + 1) 0 <<< 6))) n

/-- M4 base position (lines 196-197): the current output offset minus
`(t & 8) << 11`. -/
def m4Base (off t : Nat) : Nat :=
  sub64 off ((t &&& 8) <<< 11)

/-- The match-source position an M4 (16 <= t < 32) non-sentinel match copies
from: base minus the 2-byte distance refinement minus `0x4000` (line 216). -/
def m4MatchPos (off t d0 d1 : Nat) : Nat :=
  sub64 (sub64 (m4Base off t) ((d0 >>> 2) + (d1 <<< 6))) 0x4000

/-- Tail of an M4 match (lines 208-217): check 2 distance bytes; if the
refined position equals the current output offset this is the end-of-stream
sentinel (return `OK`); otherwise subtract `0x4000` and copy. -/
def m4Rest (src : List Nat) (cap : Nat) (out : List Nat) (t n ip2 : Nat) : StepOut :=
  if src.length < ip2 + 2 then .ret (.INPUT_OVERRUN, out)
  else if sub64 (m4Base out.length t)
      ((src.getD ip2 0 >>> 2) + (src.getD (ip2 + 1) 0 <<< 6)) = out.length then
    .ret (.OK, out)
  else
    matchCopy cap (ip2 + 2) out
      (m4MatchPos out.length t (src.getD ip2 0) (src.getD (ip2 + 1) 0)) n

/-- One step of the decoder, a direct transcription of the control flow of
`LZO1XDecompressor::decompress`.  (The C null-pointer checks have no
counterpart for lists; `srcLen == 0` is modelled.) -/
def step (src : List Nat) (cap : Nat) (s : St) : StepOut :=
  match s with
  | ⟨.start, ip, out⟩ =>
    -- lines 90-119
    if src.length = 0 then .ret (.INVALID_DATA, out)
    else
      match src.get? ip with
      | none => .ret (.INPUT_OVERRUN, out)
      | some t0 =>
        if 17 < t0 then
          if t0 - 17 < 4 then .cont ⟨.matchNext (t0 - 17), ip + 1, out⟩
          else if cap < out.length + (t0 - 17) then .ret (.OUTPUT_OVERRUN, out)
          else if src.length < ip + 1 + (t0 - 17) then .ret (.INPUT_OVERRUN, out)
          else .cont ⟨.firstLit, ip + 1 + (t0 - 17),
            out ++ (src.drop (ip + 1)).take (t0 - 17)⟩
        else .cont ⟨.top t0, ip + 1, out⟩
  | ⟨.top t, ip, out⟩ =>
    -- lines 121-139: literal run, else fall into the match loop
    if t < 16 then
      if t = 0 then
        match scanCore (src.drop ip) 0 ip with
        | .fault => .ret (.FAULT, out)
        | .overrun => .ret (.INPUT_OVERRUN, out)
        | .done acc b ip2 => litRun src cap out (acc + 15 + b) ip2
      else litRun src cap out t ip
    else .cont ⟨.inMatch t, ip, out⟩
  | ⟨.firstLit, ip, out⟩ =>
    -- lines 141-161
    match src.get? ip with
    | none => .ret (.INPUT_OVERRUN, out)
    | some t =>
      if t < 16 then
        match src.get? (ip + 1) with
        | none => .ret (.INPUT_OVERRUN, out)
        | some b =>
          matchCopy cap (ip + 2) out
            (sub64 (sub64 (sub64 (sub64 out.length 1) 0x800) (t >>> 2)) (b <<< 2)) 3
      else .cont ⟨.inMatch t, ip + 1, out⟩
  | ⟨.inMatch t, ip, out⟩ =>
    -- lines 165-249
    if 64 ≤ t then
      -- M2 (lines 169-176)
      match src.get? ip with
      | none => .ret (.INPUT_OVERRUN, out)
      | some b =>
        matchCopy cap (ip + 1) out
          (sub64 (sub64 (sub64 out.length 1) ((t >>> 2) &&& 7)) (b <<< 3))
          ((t >>> 5) - 1 + 3)
    else if 32 ≤ t then
      -- M3 (lines 177-193)
      if t &&& 31 = 0 then
        match scanCore (src.drop ip) 0 ip with
        | .fault => .ret (.FAULT, out)
        | .overrun => .ret (.INPUT_OVERRUN, out)
        | .done acc b ip2 => m3Rest src cap out (acc + 31 + b + 2) ip2
      else m3Rest src cap out ((t &&& 31) + 2) ip
    else if 16 ≤ t then
      -- M4 (lines 194-217)
      if t &&& 7 = 0 then
        match scanCore (src.drop ip) 0 ip with
        | .fault => .ret (.FAULT, out)
        | .overrun => .ret (.INPUT_OVERRUN, out)
        | .done acc b ip2 => m4Rest src cap out t (acc + 7 + b + 2) ip2
      else m4Rest src cap out t ((t &&& 7) + 2) ip
    else
      -- M1 from the match loop (lines 218-233), 2-byte copy
      match src.get? ip with
      | none => .ret (.INPUT_OVERRUN, out)
      | some b =>
        matchCopy cap (ip + 1) out
          (sub64 (sub64 (sub64 out.length 1) (t >>> 2)) (b <<< 2)) 2
  | ⟨.matchDone, ip, out⟩ =>
    -- lines 251-253: t = ip[-2] & 3; a cursor below 2 would be a wild read
    if ip < 2 then .ret (.FAULT, out)
    else
      match src.get? (ip - 2) with
      | none => .ret (.FAULT, out)
      | some b =>
        if b &&& 3 = 0 then .cont ⟨.top 0, ip, out⟩
        else .cont ⟨.matchNext (b &&& 3), ip, out⟩
  | ⟨.matchNext t, ip, out⟩ =>
    -- lines 255-268: copy 1-3 trailing literals, read next control byte,
    -- continue at the head of the inner match loop
    if cap < out.length + t then .ret (.OUTPUT_OVERRUN, out)
    else if src.length < ip + t then .ret (.INPUT_OVERRUN, out)
    else
      match src.get? (ip + t) with
      | none => .ret (.INPUT_OVERRUN, out ++ (src.drop ip).take t)
      | some t2 => .cont ⟨.inMatch t2, ip + t + 1, out ++ (src.drop ip).take t⟩

/-- Drive the step machine with fuel. -/
def run (fuel : Nat) (src : List Nat) (cap : Nat) (s : St) : Res × List Nat :=
  match fuel with
  | 0 => (.TIMEOUT, s.out)
  | f + 1 =>
    match step src cap s with
    | .ret r => r
    | .cont s2 => run f src cap s2

/-- `LZO1XDecompressor::decompress src srcLen dst dstLen maxDstLen`, returning
the result code and the bytes written into `dst`.  Every step of the machine
consumes at least one input byte within two transitions, so `2*srcLen + 8`
fuel never runs out. -/
def decompress (src : List Nat) (cap : Nat) : Res × List Nat :=
  run (2 * src.length + 8) src cap ⟨.start, 0, []⟩

end LZO1X

namespace NFlC

/-- `NFLC_MAGIC = 0x436C466E` ("nFlC" read little-endian). -/
def NFLC_MAGIC : Nat := 0x436C466E

/-- Little-endian `uint32_t` read at byte offset `off` (the packed-struct
field reads of the C code on its little-endian targets). -/
def readU32 (data : List Nat) (off : Nat) : Nat :=
  data.getD off 0 + data.getD (off + 1) 0 * 0x100 +
    data.getD (off + 2) 0 * 0x10000 + data.getD (off + 3) 0 * 0x1000000

/-- `ChunkInfo` (nflc_tool.cpp lines 64-70). -/
structure ChunkInfo where
  offset : Nat
  dataOffset : Nat
  dataSize : Nat
  chunkIndex : Nat
  version : Nat
deriving DecidableEq

/-- The header-scan loop of `parseChunks` (lines 325-351): candidate offsets
`0, 0x8000, 0x10000, ...` while a 16-byte header window remains; a magic
mismatch at offset 0 is fatal (`none`), elsewhere the stride is skipped.
Fuel counts loop iterations; `parseChunks` passes enough that fuel 0 is hit
only at an offset past the end of the buffer, where the loop stops anyway. -/
def chunkScan (fuel : Nat) (data : List Nat) (offset : Nat) : Option (List Nat) :=
  match fuel with
  | 0 => some []
  | f + 1 =>
    if offset < data.length then
      if data.length < offset + 16 then some []
      else if readU32 data offset = NFLC_MAGIC then
        (chunkScan f data (offset + 0x8000)).map (offset :: ·)
      else if offset = 0 then none
      else chunkScan f data (offset + 0x8000)
    else some []

/-- `dataOffset` of a chunk (lines 343-348): the main-header size 64 for the
chunk at offset 0, `offset + 16` (chunk-header size) otherwise. -/
def dataOffsetOf (offset : Nat) : Nat :=
  if offset = 0 then 64 else offset + 16

/-- Build the descriptor table from the matched offsets (lines 337-359):
`dataSize` is the gap from `dataOffset` to the next chunk's offset, or to the
end of the buffer for the last chunk; `chunkIndex` is bits 8..23 of the
version word. -/
def buildChunks (data : List Nat) : List Nat → List ChunkInfo
  | [] => []
  | o :: rest =>
    { offset := o
      dataOffset := dataOffsetOf o
      dataSize := (match rest with | [] => data.length | o2 :: _ => o2) - dataOffsetOf o
      chunkIndex := (readU32 data (o + 4) >>> 8) &&& 0xFFFF
      version := readU32 data (o + 4) } :: buildChunks data rest

/-- `NFlCFile::parseChunks` (lines 316-371): `none` models returning `false`
(file too small, bad magic at offset 0, or an empty table). -/
def parseChunks (data : List Nat) : Option (List ChunkInfo) :=
  if data.length < 64 then none
  else
    match chunkScan (data.length / 0x8000 + 1) data 0 with
    | none => none
    | some offs =>
      match offs with
      | [] => none
      | _ :: _ => some (buildChunks data offs)

/-- The chunk table held in `chunks_` after a successful parse
(empty when parsing failed). -/
def chunksOf (data : List Nat) : List ChunkInfo :=
  (parseChunks data).getD []

/-- `mainCompressedSize_`, read from main-header offset 0x18 (line 364). -/
def mainCompressedSize (data : List Nat) : Nat := readU32 data 0x18

/-- `mainDecompressedSize_`, read from main-header offset 0x28 (line 365). -/
def mainDecompressedSize (data : List Nat) : Nat := readU32 data 0x28

/-- `NFlCFile::decompressSingle` (lines 473-498): decode the whole payload,
starting at the first chunk's `dataOffset`, as one stream into a buffer of
`mainDecompressedSize_` bytes; any non-`OK` status yields an empty result. -/
def decompressSingle (data : List Nat) : List Nat :=
  match chunksOf data with
  | [] => []
  | c0 :: _ =>
    if mainDecompressedSize data = 0 then []
    else
      if (LZO1X.decompress
            ((data.drop c0.dataOffset).take
              (min (mainCompressedSize data) (data.length - c0.dataOffset)))
            (mainDecompressedSize data)).1 = .OK then
        (LZO1X.decompress
          ((data.drop c0.dataOffset).take
            (min (mainCompressedSize data) (data.length - c0.dataOffset)))
          (mainDecompressedSize data)).2
      else []

/-- The bytes one chunk contributes in `decompressChunked` (lines 506-531):
skip chunks extending past the buffer; decode the payload into the
`2 * 0x8000`-byte scratch buffer; on `OK` with positive length append the
decoded bytes, otherwise append the raw payload. -/
def chunkContrib (data : List Nat) (c : ChunkInfo) : List Nat :=
  if data.length < c.dataOffset + c.dataSize then []
  else
    if (LZO1X.decompress ((data.drop c.dataOffset).take c.dataSize) (2 * 0x8000)).1 = .OK ∧
        0 < (LZO1X.decompress ((data.drop c.dataOffset).take c.dataSize) (2 * 0x8000)).2.length then
      (LZO1X.decompress ((data.drop c.dataOffset).take c.dataSize) (2 * 0x8000)).2
    else (data.drop c.dataOffset).take c.dataSize

/-- The accumulation loop of `NFlCFile::decompressChunked` (lines 500-534). -/
def chunkedGo (data : List Nat) : List ChunkInfo → List Nat
  | [] => []
  | c :: rest =>
    (if data.length < c.dataOffset + c.dataSize then []
     else
       if (LZO1X.decompress ((data.drop c.dataOffset).take c.dataSize) (2 * 0x8000)).1 = .OK ∧
           0 < (LZO1X.decompress ((data.drop c.dataOffset).take c.dataSize) (2 * 0x8000)).2.length then
         (LZO1X.decompress ((data.drop c.dataOffset).take c.dataSize) (2 * 0x8000)).2
       else (data.drop c.dataOffset).take c.dataSize) ++ chunkedGo data rest

/-- `NFlCFile::decompressChunked` with the default scratch size. -/
def decompressChunked (data : List Nat) : List Nat :=
  chunkedGo data (chunksOf data)

/-- `NFlCFile::extractRaw` (lines 458-471): concatenate every in-bounds
chunk's raw payload. -/
def extractRaw (data : List Nat) : List Nat :=
  (chunksOf data).foldr
    (fun c acc =>
      (if c.dataOffset + c.dataSize ≤ data.length
       then (data.drop c.dataOffset).take c.dataSize else []) ++ acc) []

/-- `NFlCFile::decompress` (lines 536-560): single-block, then chunked, then
raw extraction; return the first non-empty result. -/
def decompress (data : List Nat) : List Nat :=
  if decompressSingle data ≠ [] then decompressSingle data
  else if decompressChunked data ≠ [] then decompressChunked data
  else extractRaw data

/-- The reconstruction cascade as the specification words it: an ordered list
of strategy results, of which the first non-empty one is returned.
(Spec-side definition, to be compared with `NFlC.decompress`.) -/
def firstNonEmpty : List (List Nat) → List Nat
  | [] => []
  | x :: xs => if x = [] then firstNonEmpty xs else x

end NFlC

namespace LZO1X

/-- The bytes carried by a step outcome: the returned buffer for `ret`, the
running output for `cont`. -/
def stOut : StepOut → List Nat
  | .ret (_, o) => o
  | .cont s2 => s2.out

/-- The M4 match-source position as the specification sentence states it:
current output offset, minus `(t & 8) << 11`, minus the two-byte distance
refinement - and no other term. -/
def m4SpecPos (off t d0 d1 : Nat) : Nat :=
  sub64 (sub64 off ((t &&& 8) <<< 11)) ((d0 >>> 2) + (d1 <<< 6))

end LZO1X

/-- The 19-byte literal-run stream of the spec scenario:
`{0x20, 'A'..'O', 0x11, 0x00, 0x00}`. -/
def demoStream : List Nat :=
  [32, 65, 66, 67, 68, 69, 70, 71, 72, 73, 74, 75, 76, 77, 78, 79, 17, 0, 0]

/-- Its decompressed content, `"ABCDEFGHIJKLMNO"`. -/
def demoOut : List Nat :=
  [65, 66, 67, 68, 69, 70, 71, 72, 73, 74, 75, 76, 77, 78, 79]

/-- The 4 bytes `"nFlC"`, the little-endian encoding of `0x436C466E`. -/
def magic4 : List Nat := [0x6E, 0x46, 0x6C, 0x43]

/-- 65536-byte container with the signature at offsets 0 and 32768 (parser
scenario witness). -/
def c7buf : List Nat :=
  magic4 ++ (List.replicate 32764 0 ++ (magic4 ++ List.replicate 32764 0))

/-- Minimal 64-byte container: signature at offset 0, all other bytes 0. -/
def c8buf : List Nat := magic4 ++ List.replicate 60 0

/-- 80-byte container whose header declares `compressedSize = 16`,
`decompressedSize = 100`, with a 16-byte all-zero (undecodable) payload. -/
def c9buf : List Nat :=
  magic4 ++ List.replicate 20 0 ++ [16, 0, 0, 0] ++ List.replicate 12 0 ++
    [100, 0, 0, 0] ++ List.replicate 20 0 ++ List.replicate 16 0

/-- Chunk-0 payload of the degradation scenario: a valid stream decoding to
15 times `'A'`. -/
def c10p0 : List Nat := 32 :: (List.replicate 15 65 ++ [17, 0, 0])

/-- Chunk-2 payload: a valid stream decoding to 15 times `'B'`. -/
def c10p2 : List Nat := 32 :: (List.replicate 15 66 ++ [17, 0, 0])

/-- 65571-byte, 3-chunk container: chunk 0 (payload `c10p0` zero-padded to
32704 bytes) and chunk 2 (payload `c10p2`) are valid streams, chunk 1's
32752-byte payload is all zeros and cannot be decoded. -/
def c10buf : List Nat :=
  (magic4 ++ List.replicate 60 0) ++
    ((c10p0 ++ List.replicate 32685 0) ++
      ((magic4 ++ List.replicate 12 0) ++
        (List.replicate 32752 0 ++
          ((magic4 ++ List.replicate 12 0) ++ c10p2))))

-- Sanity checks against the spec scenarios (end-marker minimality and the
-- literal-run stream).
example : LZO1X.decompress [17, 0, 0] 100 = (.OK, []) := by decide
example : LZO1X.decompress demoStream 15 = (.OK, demoOut) := by decide

namespace LZO1X

theorem lbCopy_length (n : Nat) : ∀ (out : List Nat) (pos : Nat),
    (lbCopy out pos n).length = out.length + n := by
  induction n with
  | zero => intro out pos; simp [lbCopy]
  | succ m ih =>
    intro out pos
    simp only [lbCopy, ih]
    simp
    omega

theorem take_drop_length {src : List Nat} {ip n : Nat} (h : ip + n ≤ src.length) :
    ((src.drop ip).take n).length = n := by
  simp [List.length_take, List.length_drop]
  omega

theorem run_succ (f : Nat) (src : List Nat) (cap : Nat) (s : St) :
    run (f + 1) src cap s =
      (match step src cap s with
       | .ret r => r
       | .cont s2 => run f src cap s2) := rfl

theorem run_mono {f f2 : Nat} {src : List Nat} {cap : Nat} {s : St} {r : Res}
    {o : List Nat} (h : run f src cap s = (r, o)) (hr : r ≠ .TIMEOUT)
    (hf : f ≤ f2) : run f2 src cap s = (r, o) := by
  induction f generalizing s f2 with
  | zero =>
    simp only [run] at h
    cases h
    exact absurd rfl hr
  | succ g ih =>
    rw [run_succ] at h
    match f2, hf with
    | f3 + 1, _ =>
      rw [run_succ]
      cases hs : step src cap s with
      | ret rr => rw [hs] at h; rw [h]
      | cont s2 =>
        rw [hs] at h
        exact ih h (Nat.le_of_succ_le_succ (by omega))

-- Step-level lemmas for `matchCopy`.

theorem matchCopy_grow (cap ip : Nat) (out : List Nat) (pos n : Nat) :
    out.length ≤ (stOut (matchCopy cap ip out pos n)).length := by
  unfold matchCopy
  split_ifs <;> simp [stOut, lbCopy_length]

theorem matchCopy_cont {cap ip : Nat} {out : List Nat} {pos n : Nat} {s2 : St}
    (h : matchCopy cap ip out pos n = .cont s2) :
    s2 = ⟨.matchDone, ip, lbCopy out pos n⟩ ∧ out.length + n ≤ cap := by
  unfold matchCopy at h
  by_cases h1 : out.length ≤ pos
  · rw [if_pos h1] at h; cases h
  · rw [if_neg h1] at h
    by_cases h2 : cap < out.length + n
    · rw [if_pos h2] at h; cases h
    · rw [if_neg h2] at h
      cases h
      exact ⟨rfl, by omega⟩

theorem matchCopy_ret {cap ip : Nat} {out : List Nat} {pos n : Nat}
    {r : Res} {o : List Nat} (h : matchCopy cap ip out pos n = .ret (r, o)) :
    o = out ∧ r ≠ .OK := by
  unfold matchCopy at h
  by_cases h1 : out.length ≤ pos
  · rw [if_pos h1] at h; cases h; simp
  · rw [if_neg h1] at h
    by_cases h2 : cap < out.length + n
    · rw [if_pos h2] at h; cases h; simp
    · rw [if_neg h2] at h; cases h

theorem matchCopy_compare {cap2 cap : Nat} (ip : Nat) (out : List Nat)
    (pos n : Nat) (hc : cap2 ≤ cap) :
    matchCopy cap2 ip out pos n = matchCopy cap ip out pos n ∨
      (matchCopy cap2 ip out pos n = .ret (.OUTPUT_OVERRUN, out) ∧
        (∀ s2, matchCopy cap ip out pos n = .cont s2 → cap2 < s2.out.length) ∧
        (∀ o2, matchCopy cap ip out pos n ≠ .ret (.OK, o2))) := by
  unfold matchCopy
  by_cases hp : out.length ≤ pos
  · left; simp [hp]
  · by_cases hsmall : cap2 < out.length + n
    · by_cases hbig : cap < out.length + n
      · left; simp [hp, hsmall, hbig]
      · right
        refine ⟨by simp [hp, hsmall], ?_, ?_⟩
        · intro s2 h2
          simp only [if_neg hp, if_neg hbig] at h2
          cases h2
          simp [lbCopy_length]
          omega
        · intro o2 hcon
          rw [if_neg hp, if_neg hbig] at hcon
          cases hcon
    · have hbig : ¬cap < out.length + n := by omega
      left; simp [hp, hsmall, hbig]

-- Step-level lemmas for `litRun`.

theorem litRun_grow (src : List Nat) (cap : Nat) (out : List Nat) (t ip : Nat) :
    out.length ≤ (stOut (litRun src cap out t ip)).length := by
  unfold litRun
  split_ifs <;> simp [stOut]

theorem litRun_cont {src : List Nat} {cap : Nat} {out : List Nat} {t ip : Nat}
    {s2 : St} (h : litRun src cap out t ip = .cont s2) :
    s2.out.length = out.length + (t + 3) ∧ s2.out.length ≤ cap := by
  unfold litRun at h
  by_cases h1 : cap < out.length + (t + 3)
  · rw [if_pos h1] at h; cases h
  · rw [if_neg h1] at h
    by_cases h2 : src.length < ip + (t + 3)
    · rw [if_pos h2] at h; cases h
    · rw [if_neg h2] at h
      cases h
      have hl : ((src.drop ip).take (t + 3)).length = t + 3 :=
        take_drop_length (by omega)
      constructor
      · simp [hl]
      · simp [hl]
        omega

theorem litRun_ret {src : List Nat} {cap : Nat} {out : List Nat} {t ip : Nat}
    {r : Res} {o : List Nat} (h : litRun src cap out t ip = .ret (r, o)) :
    o = out ∧ r ≠ .OK := by
  unfold litRun at h
  by_cases h1 : cap < out.length + (t + 3)
  · rw [if_pos h1] at h; cases h; simp
  · rw [if_neg h1] at h
    by_cases h2 : src.length < ip + (t + 3)
    · rw [if_pos h2] at h; cases h; simp
    · rw [if_neg h2] at h; cases h

theorem litRun_compare {cap2 cap : Nat} (src : List Nat) (out : List Nat)
    (t ip : Nat) (hc : cap2 ≤ cap) :
    litRun src cap2 out t ip = litRun src cap out t ip ∨
      (litRun src cap2 out t ip = .ret (.OUTPUT_OVERRUN, out) ∧
        (∀ s2, litRun src cap out t ip = .cont s2 → cap2 < s2.out.length) ∧
        (∀ o2, litRun src cap out t ip ≠ .ret (.OK, o2))) := by
  unfold litRun
  by_cases hsmall : cap2 < out.length + (t + 3)
  · by_cases hbig : cap < out.length + (t + 3)
    · left; simp [hsmall, hbig]
    · right
      refine ⟨by simp [hsmall], ?_, ?_⟩
      · intro s2 h2
        rw [if_neg hbig] at h2
        by_cases hin : src.length < ip + (t + 3)
        · rw [if_pos hin] at h2; cases h2
        · rw [if_neg hin] at h2
          cases h2
          have hl : ((src.drop ip).take (t + 3)).length = t + 3 :=
            take_drop_length (by omega)
          simp [hl]
          omega
      · intro o2 hcon
        rw [if_neg hbig] at hcon
        by_cases hin : src.length < ip + (t + 3)
        · rw [if_pos hin] at hcon; cases hcon
        · rw [if_neg hin] at hcon; cases hcon
  · have hbig : ¬cap < out.length + (t + 3) := by omega
    left; simp [hsmall, hbig]

-- Step-level lemmas for `m3Rest`.

theorem m3Rest_grow (src : List Nat) (cap : Nat) (out : List Nat) (n ip2 : Nat) :
    out.length ≤ (stOut (m3Rest src cap out n ip2)).length := by
  unfold m3Rest
  by_cases hin : src.length < ip2 + 2
  · rw [if_pos hin]; simp [stOut]
  · rw [if_neg hin]; exact matchCopy_grow _ _ _ _ _

theorem m3Rest_cont {src : List Nat} {cap : Nat} {out : List Nat} {n ip2 : Nat}
    {s2 : St} (h : m3Rest src cap out n ip2 = .cont s2) :
    s2.out.length ≤ cap := by
  unfold m3Rest at h
  by_cases hin : src.length < ip2 + 2
  · rw [if_pos hin] at h; cases h
  · rw [if_neg hin] at h
    obtain ⟨h2, hle⟩ := matchCopy_cont h
    subst h2
    simp only [lbCopy_length]
    omega

theorem m3Rest_ret {src : List Nat} {cap : Nat} {out : List Nat} {n ip2 : Nat}
    {r : Res} {o : List Nat} (h : m3Rest src cap out n ip2 = .ret (r, o)) :
    o = out ∧ r ≠ .OK := by
  unfold m3Rest at h
  by_cases hin : src.length < ip2 + 2
  · rw [if_pos hin] at h; cases h; simp
  · rw [if_neg hin] at h; exact matchCopy_ret h

theorem m3Rest_compare {cap2 cap : Nat} (src : List Nat) (out : List Nat)
    (n ip2 : Nat) (hc : cap2 ≤ cap) :
    m3Rest src cap2 out n ip2 = m3Rest src cap out n ip2 ∨
      (m3Rest src cap2 out n ip2 = .ret (.OUTPUT_OVERRUN, out) ∧
        (∀ s2, m3Rest src cap out n ip2 = .cont s2 → cap2 < s2.out.length) ∧
        (∀ o2, m3Rest src cap out n ip2 ≠ .ret (.OK, o2))) := by
  unfold m3Rest
  by_cases hin : src.length < ip2 + 2
  · left; rw [if_pos hin, if_pos hin]
  · rw [if_neg hin, if_neg hin]; exact matchCopy_compare _ _ _ _ hc

-- Step-level lemmas for `m4Rest`.

theorem m4Rest_grow (src : List Nat) (cap : Nat) (out : List Nat) (t n ip2 : Nat) :
    out.length ≤ (stOut (m4Rest src cap out t n ip2)).length := by
  unfold m4Rest
  by_cases hin : src.length < ip2 + 2
  · rw [if_pos hin]; simp [stOut]
  · rw [if_neg hin]
    by_cases hs : sub64 (m4Base out.length t)
        ((src.getD ip2 0 >>> 2) + (src.getD (ip2 + 1) 0 <<< 6)) = out.length
    · rw [if_pos hs]; simp [stOut]
    · rw [if_neg hs]; exact matchCopy_grow _ _ _ _ _

theorem m4Rest_cont {src : List Nat} {cap : Nat} {out : List Nat} {t n ip2 : Nat}
    {s2 : St} (h : m4Rest src cap out t n ip2 = .cont s2) :
    s2.out.length ≤ cap := by
  unfold m4Rest at h
  by_cases hin : src.length < ip2 + 2
  · rw [if_pos hin] at h; cases h
  · rw [if_neg hin] at h
    by_cases hs : sub64 (m4Base out.length t)
        ((src.getD ip2 0 >>> 2) + (src.getD (ip2 + 1) 0 <<< 6)) = out.length
    · rw [if_pos hs] at h; cases h
    · rw [if_neg hs] at h
      obtain ⟨h2, hle⟩ := matchCopy_cont h
      subst h2
      simp only [lbCopy_length]
      omega

theorem m4Rest_ret {src : List Nat} {cap : Nat} {out : List Nat} {t n ip2 : Nat}
    {r : Res} {o : List Nat} (h : m4Rest src cap out t n ip2 = .ret (r, o)) :
    o = out := by
  unfold m4Rest at h
  by_cases hin : src.length < ip2 + 2
  · rw [if_pos hin] at h; cases h; rfl
  · rw [if_neg hin] at h
    by_cases hs : sub64 (m4Base out.length t)
        ((src.getD ip2 0 >>> 2) + (src.getD (ip2 + 1) 0 <<< 6)) = out.length
    · rw [if_pos hs] at h; cases h; rfl
    · rw [if_neg hs] at h; exact (matchCopy_ret h).1

theorem litRun_props (src : List Nat) (cap : Nat) (out : List Nat) (t ip : Nat) :
    out.length ≤ (stOut (litRun src cap out t ip)).length ∧
      (stOut (litRun src cap out t ip) = out ∨
        (stOut (litRun src cap out t ip)).length ≤ cap) ∧
      (∀ o, litRun src cap out t ip = .ret (.OK, o) → o = out) := by
  cases hr : litRun src cap out t ip with
  | ret rp =>
    rcases rp with ⟨r, o⟩
    obtain ⟨ho, hok⟩ := litRun_ret hr
    subst ho
    refine ⟨by simp [stOut], Or.inl rfl, ?_⟩
    intro o2 h2
    rw [StepOut.ret.injEq, Prod.mk.injEq] at h2
    exact absurd h2.1 hok
  | cont s2 =>
    have hc := litRun_cont hr
    exact ⟨by simp only [stOut]; omega, Or.inr (by simp only [stOut]; omega),
      by intro o2 h2; cases h2⟩

theorem matchCopy_props (cap ip : Nat) (out : List Nat) (pos n : Nat) :
    out.length ≤ (stOut (matchCopy cap ip out pos n)).length ∧
      (stOut (matchCopy cap ip out pos n) = out ∨
        (stOut (matchCopy cap ip out pos n)).length ≤ cap) ∧
      (∀ o, matchCopy cap ip out pos n = .ret (.OK, o) → o = out) := by
  cases hr : matchCopy cap ip out pos n with
  | ret rp =>
    rcases rp with ⟨r, o⟩
    obtain ⟨ho, hok⟩ := matchCopy_ret hr
    subst ho
    refine ⟨by simp [stOut], Or.inl rfl, ?_⟩
    intro o2 h2
    rw [StepOut.ret.injEq, Prod.mk.injEq] at h2
    exact absurd h2.1 hok
  | cont s2 =>
    obtain ⟨hs, hle⟩ := matchCopy_cont hr
    subst hs
    refine ⟨by simp only [stOut, lbCopy_length]; omega,
      Or.inr (by simp only [stOut, lbCopy_length]; omega),
      by intro o2 h2; cases h2⟩

theorem m3Rest_props (src : List Nat) (cap : Nat) (out : List Nat) (n ip2 : Nat) :
    out.length ≤ (stOut (m3Rest src cap out n ip2)).length ∧
      (stOut (m3Rest src cap out n ip2) = out ∨
        (stOut (m3Rest src cap out n ip2)).length ≤ cap) ∧
      (∀ o, m3Rest src cap out n ip2 = .ret (.OK, o) → o = out) := by
  refine ⟨m3Rest_grow _ _ _ _ _, ?_, ?_⟩
  · cases hr : m3Rest src cap out n ip2 with
    | ret rp =>
      rcases rp with ⟨r, o⟩
      exact Or.inl (by simp [stOut, (m3Rest_ret hr).1])
    | cont s2 =>
      exact Or.inr (m3Rest_cont hr)
  · intro o h
    exact (m3Rest_ret h).1

theorem m4Rest_props (src : List Nat) (cap : Nat) (out : List Nat) (t n ip2 : Nat) :
    out.length ≤ (stOut (m4Rest src cap out t n ip2)).length ∧
      (stOut (m4Rest src cap out t n ip2) = out ∨
        (stOut (m4Rest src cap out t n ip2)).length ≤ cap) ∧
      (∀ o, m4Rest src cap out t n ip2 = .ret (.OK, o) → o = out) := by
  refine ⟨m4Rest_grow _ _ _ _ _ _, ?_, ?_⟩
  · cases hr : m4Rest src cap out t n ip2 with
    | ret rp =>
      rcases rp with ⟨r, o⟩
      exact Or.inl (by simp [stOut, m4Rest_ret hr])
    | cont s2 =>
      exact Or.inr (m4Rest_cont hr)
  · intro o h
    exact m4Rest_ret h

theorem m4Rest_compare {cap2 cap : Nat} (src : List Nat) (out : List Nat)
    (t n ip2 : Nat) (hc : cap2 ≤ cap) :
    m4Rest src cap2 out t n ip2 = m4Rest src cap out t n ip2 ∨
      (m4Rest src cap2 out t n ip2 = .ret (.OUTPUT_OVERRUN, out) ∧
        (∀ s2, m4Rest src cap out t n ip2 = .cont s2 → cap2 < s2.out.length) ∧
        (∀ o2, m4Rest src cap out t n ip2 ≠ .ret (.OK, o2))) := by
  unfold m4Rest
  by_cases hin : src.length < ip2 + 2
  · left; rw [if_pos hin, if_pos hin]
  · rw [if_neg hin, if_neg hin]
    by_cases hs : sub64 (m4Base out.length t)
        ((src.getD ip2 0 >>> 2) + (src.getD (ip2 + 1) 0 <<< 6)) = out.length
    · left; rw [if_pos hs, if_pos hs]
    · rw [if_neg hs, if_neg hs]; exact matchCopy_compare _ _ _ _ hc

/-- Per-step safety bundle: the output never shrinks, a step that changes the
output keeps it within `cap`, and an `OK` return (the end-of-stream sentinel)
leaves the output untouched. -/
theorem step_props (src : List Nat) (cap : Nat) (s : St) :
    s.out.length ≤ (stOut (step src cap s)).length ∧
      (stOut (step src cap s) = s.out ∨ (stOut (step src cap s)).length ≤ cap) ∧
      (∀ o, step src cap s = .ret (.OK, o) → o = s.out) := by
  rcases s with ⟨ph, ip, out⟩
  cases ph with
  | start =>
    simp only [step]
    repeat' split
    all_goals try (simp [stOut]; done)
    all_goals
      refine ⟨by simp [stOut], Or.inr ?_, by intro o h; cases h⟩
      simp only [stOut, List.length_append, List.length_take, List.length_drop]
      omega
  | top t =>
    simp only [step]
    repeat' split
    all_goals try (simp [stOut]; done)
    all_goals exact litRun_props _ _ _ _ _
  | firstLit =>
    simp only [step]
    repeat' split
    all_goals try (simp [stOut]; done)
    all_goals exact matchCopy_props _ _ _ _ _
  | inMatch t =>
    simp only [step]
    by_cases h64 : 64 ≤ t
    · rw [if_pos h64]
      split
      · simp [stOut]
      · exact matchCopy_props _ _ _ _ _
    · rw [if_neg h64]
      by_cases h32 : 32 ≤ t
      · rw [if_pos h32]
        by_cases h31 : t &&& 31 = 0
        · rw [if_pos h31]
          split
          · simp [stOut]
          · simp [stOut]
          · exact m3Rest_props _ _ _ _ _
        · rw [if_neg h31]
          exact m3Rest_props _ _ _ _ _
      · rw [if_neg h32]
        by_cases h16 : 16 ≤ t
        · rw [if_pos h16]
          by_cases h7 : t &&& 7 = 0
          · rw [if_pos h7]
            split
            · simp [stOut]
            · simp [stOut]
            · exact m4Rest_props _ _ _ _ _ _
          · rw [if_neg h7]
            exact m4Rest_props _ _ _ _ _ _
        · rw [if_neg h16]
          split
          · simp [stOut]
          · exact matchCopy_props _ _ _ _ _
  | matchDone =>
    simp only [step]
    repeat' split
    all_goals simp [stOut]
  | matchNext t =>
    simp only [step]
    repeat' split
    all_goals try (simp [stOut]; done)
    all_goals
      refine ⟨by simp [stOut], Or.inr ?_, by intro o h; cases h⟩
      simp only [stOut, List.length_append, List.length_take, List.length_drop]
      omega

/-- Comparing one step under a smaller output capacity `cap2 <= cap`: either
the step is unchanged (its checks do not involve the capacity, or pass under
both), or the smaller capacity makes the output bound fire, returning
`OUTPUT_OVERRUN` with the output untouched - and in that case any
continuation under the larger capacity has grown past `cap2`. -/
theorem step_compare {cap2 cap : Nat} (src : List Nat) (s : St) (hc : cap2 ≤ cap) :
    step src cap2 s = step src cap s ∨
      (step src cap2 s = .ret (.OUTPUT_OVERRUN, s.out) ∧
        (∀ s2, step src cap s = .cont s2 → cap2 < s2.out.length) ∧
        (∀ o2, step src cap s ≠ .ret (.OK, o2))) := by
  rcases s with ⟨ph, ip, out⟩
  cases ph with
  | start =>
    simp only [step]
    split
    · left; rfl
    · split
      · left; rfl
      · rename_i t0 heq
        by_cases h17 : 17 < t0
        · rw [if_pos h17, if_pos h17]
          by_cases h4 : t0 - 17 < 4
          · left; rw [if_pos h4, if_pos h4]
          · rw [if_neg h4, if_neg h4]
            by_cases hs : cap2 < out.length + (t0 - 17)
            · by_cases hb : cap < out.length + (t0 - 17)
              · left; rw [if_pos hs, if_pos hb]
              · right
                refine ⟨by rw [if_pos hs], ?_, ?_⟩
                · intro s2 h2
                  rw [if_neg hb] at h2
                  by_cases hin : src.length < ip + 1 + (t0 - 17)
                  · rw [if_pos hin] at h2; cases h2
                  · rw [if_neg hin] at h2
                    cases h2
                    show cap2 < (out ++ (src.drop (ip + 1)).take (t0 - 17)).length
                    rw [List.length_append, take_drop_length (by omega)]
                    omega
                · intro o2 hcon
                  rw [if_neg hb] at hcon
                  by_cases hin : src.length < ip + 1 + (t0 - 17)
                  · rw [if_pos hin] at hcon; cases hcon
                  · rw [if_neg hin] at hcon; cases hcon
            · have hb : ¬cap < out.length + (t0 - 17) := by omega
              left; rw [if_neg hs, if_neg hb]
        · left; rw [if_neg h17, if_neg h17]
  | top t =>
    simp only [step]
    by_cases h16 : t < 16
    · rw [if_pos h16, if_pos h16]
      by_cases h0 : t = 0
      · rw [if_pos h0, if_pos h0]
        split
        · left; rfl
        · left; rfl
        · exact litRun_compare _ _ _ _ hc
      · rw [if_neg h0, if_neg h0]
        exact litRun_compare _ _ _ _ hc
    · left; rw [if_neg h16, if_neg h16]
  | firstLit =>
    simp only [step]
    split
    · left; rfl
    · rename_i t heq
      by_cases h16 : t < 16
      · rw [if_pos h16, if_pos h16]
        split
        · left; rfl
        · exact matchCopy_compare _ _ _ _ hc
      · left; rw [if_neg h16, if_neg h16]
  | inMatch t =>
    simp only [step]
    by_cases h64 : 64 ≤ t
    · rw [if_pos h64, if_pos h64]
      split
      · left; rfl
      · exact matchCopy_compare _ _ _ _ hc
    · rw [if_neg h64, if_neg h64]
      by_cases h32 : 32 ≤ t
      · rw [if_pos h32, if_pos h32]
        by_cases h31 : t &&& 31 = 0
        · rw [if_pos h31, if_pos h31]
          split
          · left; rfl
          · left; rfl
          · exact m3Rest_compare _ _ _ _ hc
        · rw [if_neg h31, if_neg h31]
          exact m3Rest_compare _ _ _ _ hc
      · rw [if_neg h32, if_neg h32]
        by_cases h16 : 16 ≤ t
        · rw [if_pos h16, if_pos h16]
          by_cases h7 : t &&& 7 = 0
          · rw [if_pos h7, if_pos h7]
            split
            · left; rfl
            · left; rfl
            · exact m4Rest_compare _ _ _ _ _ hc
          · rw [if_neg h7, if_neg h7]
            exact m4Rest_compare _ _ _ _ _ hc
        · rw [if_neg h16, if_neg h16]
          split
          · left; rfl
          · exact matchCopy_compare _ _ _ _ hc
  | matchDone =>
    left; rfl
  | matchNext t =>
    simp only [step]
    by_cases hs : cap2 < out.length + t
    · by_cases hb : cap < out.length + t
      · left; rw [if_pos hs, if_pos hb]
      · right
        refine ⟨by rw [if_pos hs], ?_, ?_⟩
        · intro s2 h2
          rw [if_neg hb] at h2
          by_cases hin : src.length < ip + t
          · rw [if_pos hin] at h2; cases h2
          · rw [if_neg hin] at h2
            rcases hg : src.get? (ip + t) with _ | t2
            · simp only [hg] at h2; cases h2
            · simp only [hg] at h2
              cases h2
              show cap2 < (out ++ (src.drop ip).take t).length
              rw [List.length_append, take_drop_length (by omega)]
              omega
        · intro o2 hcon
          rw [if_neg hb] at hcon
          by_cases hin : src.length < ip + t
          · rw [if_pos hin] at hcon; cases hcon
          · rw [if_neg hin] at hcon
            rcases hg : src.get? (ip + t) with _ | t2
            · simp only [hg] at hcon; cases hcon
            · simp only [hg] at hcon; cases hcon
    · have hb : ¬cap < out.length + t := by omega
      left; rw [if_neg hs, if_neg hb]

/-- Output-bound invariant: if the output written so far fits in `cap`, the
run's final output also fits - every write is preceded by its output check. -/
theorem run_out_le {f : Nat} {src : List Nat} {cap : Nat} {s : St}
    (h : s.out.length ≤ cap) : ((run f src cap s).2).length ≤ cap := by
  induction f generalizing s with
  | zero => simpa [run] using h
  | succ g ih =>
    rw [run_succ]
    cases hs : step src cap s with
    | ret rp =>
      rcases rp with ⟨r, o⟩
      have hp := (step_props src cap s).2.1
      rw [hs] at hp
      simp only [stOut] at hp
      rcases hp with hp | hp
      · simpa [hp] using h
      · exact hp
    | cont s2 =>
      have hp := (step_props src cap s).2.1
      rw [hs] at hp
      simp only [stOut] at hp
      apply ih
      rcases hp with hp | hp
      · rw [hp]; exact h
      · exact hp

/-- The output only grows during a run. -/
theorem run_out_grow {f : Nat} {src : List Nat} {cap : Nat} {s : St} {r : Res}
    {o : List Nat} (h : run f src cap s = (r, o)) : s.out.length ≤ o.length := by
  induction f generalizing s with
  | zero =>
    simp only [run] at h
    cases h
    exact le_refl _
  | succ g ih =>
    rw [run_succ] at h
    cases hs : step src cap s with
    | ret rp =>
      simp only [hs] at h
      have h1 := (step_props src cap s).1
      rw [hs] at h1
      simp only [stOut] at h1
      rw [h] at h1
      exact h1
    | cont s2 =>
      simp only [hs] at h
      have h1 := (step_props src cap s).1
      rw [hs] at h1
      simp only [stOut] at h1
      exact le_trans h1 (ih h)

/-- Enlarging the output capacity preserves any result other than
`OUTPUT_OVERRUN`. -/
theorem run_cap_mono {f : Nat} {src : List Nat} {cap cap2 : Nat} {s : St}
    {r : Res} {o : List Nat} (hc : cap ≤ cap2) (h : run f src cap s = (r, o))
    (hr : r ≠ .OUTPUT_OVERRUN) : run f src cap2 s = (r, o) := by
  induction f generalizing s with
  | zero =>
    simp only [run] at h ⊢
    exact h
  | succ g ih =>
    rw [run_succ] at h ⊢
    rcases step_compare src s hc with hcmp | ⟨hcmp, _⟩
    · rw [← hcmp]
      cases hs : step src cap s with
      | ret rp =>
        simp only [hs] at h ⊢
        exact h
      | cont s2 =>
        simp only [hs] at h ⊢
        exact ih h
    · rw [hcmp] at h
      have h2 : ((.OUTPUT_OVERRUN, s.out) : Res × List Nat) = (r, o) := h
      cases h2
      exact absurd rfl hr

/-- Shrinking the capacity below the final output length of an `OK` run makes
the run fail with `OUTPUT_OVERRUN` (the bound fires before any overflowing
write). -/
theorem run_cap_shrink {f : Nat} {src : List Nat} {cap cap2 : Nat} {s : St}
    {o : List Nat} (h : run f src cap s = (.OK, o)) (hc : cap2 ≤ cap)
    (hs2 : s.out.length ≤ cap2) (hlt : cap2 < o.length) :
    (run f src cap2 s).1 = .OUTPUT_OVERRUN := by
  induction f generalizing s with
  | zero =>
    simp only [run] at h
    cases h
  | succ g ih =>
    rw [run_succ] at h ⊢
    rcases step_compare src s hc with hcmp | ⟨hcmp, hgrow, hnok⟩
    · rw [hcmp]
      cases hst : step src cap s with
      | ret rp =>
        simp only [hst] at h
        rw [h] at hst
        have ho := (step_props src cap s).2.2 o hst
        rw [ho] at hlt
        omega
      | cont s2 =>
        simp only [hst] at h ⊢
        have hsmall : step src cap2 s = .cont s2 := by rw [hcmp, hst]
        have hb := (step_props src cap2 s).2.1
        rw [hsmall] at hb
        simp only [stOut] at hb
        apply ih h
        rcases hb with hb | hb
        · rw [hb]; exact hs2
        · exact hb
    · rw [hcmp]

/-- Shrinking the capacity of an `OK` run, but not below its final output
length, preserves the result exactly. -/
theorem run_cap_keep {f : Nat} {src : List Nat} {cap cap2 : Nat} {s : St}
    {o : List Nat} (h : run f src cap s = (.OK, o)) (hc : cap2 ≤ cap)
    (ho : o.length ≤ cap2) : run f src cap2 s = (.OK, o) := by
  induction f generalizing s with
  | zero =>
    simp only [run] at h
    cases h
  | succ g ih =>
    rw [run_succ] at h ⊢
    rcases step_compare src s hc with hcmp | ⟨hcmp, hgrow, hnok⟩
    · rw [hcmp]
      cases hst : step src cap s with
      | ret rp =>
        simp only [hst] at h ⊢
        exact h
      | cont s2 =>
        simp only [hst] at h ⊢
        exact ih h
    · cases hst : step src cap s with
      | ret rp =>
        simp only [hst] at h
        rw [h] at hst
        exact absurd hst (hnok o)
      | cont s2 =>
        simp only [hst] at h
        have hg2 := hgrow s2 hst
        have hg3 := run_out_grow h
        omega

/-- The output of `decompress` never exceeds the destination capacity. -/
theorem decompress_out_le (src : List Nat) (cap : Nat) :
    ((decompress src cap).2).length ≤ cap :=
  run_out_le (by simp)

theorem run_cont {src : List Nat} {cap : Nat} {s s2 : St} {f : Nat}
    (h : step src cap s = .cont s2) :
    run (f + 1) src cap s = run f src cap s2 := by
  rw [run_succ, h]

theorem run_ret {src : List Nat} {cap : Nat} {s : St} {rp : Res × List Nat}
    {f : Nat} (h : step src cap s = .ret rp) :
    run (f + 1) src cap s = rp := by
  rw [run_succ, h]

/-- The zero-run scan of an all-zero suffix runs off the end of the checked
region and reports the in-loop `INPUT_OVERRUN`. -/
theorem scanCore_replicate (n : Nat) :
    ∀ acc i : Nat, scanCore (List.replicate (n + 1) 0) acc i = .overrun := by
  induction n with
  | zero => intro acc i; rfl
  | succ m ih =>
    intro acc i
    have h1 : scanCore (List.replicate (m + 1 + 1) 0) acc i =
        scanCore (List.replicate (m + 1) 0) (acc + 255) (i + 1) := rfl
    rw [h1]
    exact ih (acc + 255) (i + 1)

end LZO1X

namespace NFlC

theorem chunkScan_succ (f : Nat) (data : List Nat) (offset : Nat) :
    chunkScan (f + 1) data offset =
      (if offset < data.length then
        if data.length < offset + 16 then some []
        else if readU32 data offset = NFLC_MAGIC then
          (chunkScan f data (offset + 0x8000)).map (offset :: ·)
        else if offset = 0 then none
        else chunkScan f data (offset + 0x8000)
      else some []) := rfl

/-- At a stride offset other than 0 the scan never fails: a signature
mismatch there just skips the stride. -/
theorem chunkScan_pos_ne_none (f : Nat) (data : List Nat) :
    ∀ offset : Nat, offset ≠ 0 → chunkScan f data offset ≠ none := by
  induction f with
  | zero => intro offset h; simp [chunkScan]
  | succ g ih =>
    intro offset h
    rw [chunkScan_succ]
    by_cases h1 : offset < data.length
    · rw [if_pos h1]
      by_cases h2 : data.length < offset + 16
      · simp [h2]
      · rw [if_neg h2]
        by_cases h3 : readU32 data offset = NFLC_MAGIC
        · rw [if_pos h3]
          intro hcon
          rw [Option.map_eq_none'] at hcon
          exact ih (offset + 0x8000) (by omega) hcon
        · rw [if_neg h3, if_neg h]
          exact ih (offset + 0x8000) (by omega)
    · simp [h1]

/-- Every offset the scan records carries a matching signature. -/
theorem chunkScan_mem_magic (f : Nat) (data : List Nat) :
    ∀ (offset : Nat) (l : List Nat) (o : Nat), chunkScan f data offset = some l →
      o ∈ l → readU32 data o = NFLC_MAGIC := by
  induction f with
  | zero =>
    intro offset l o h hm
    simp only [chunkScan, Option.some.injEq] at h
    subst h
    simp at hm
  | succ g ih =>
    intro offset l o h hm
    rw [chunkScan_succ] at h
    by_cases h1 : offset < data.length
    · rw [if_pos h1] at h
      by_cases h2 : data.length < offset + 16
      · rw [if_pos h2] at h
        cases h
        simp at hm
      · rw [if_neg h2] at h
        by_cases h3 : readU32 data offset = NFLC_MAGIC
        · rw [if_pos h3] at h
          rcases hsc : chunkScan g data (offset + 0x8000) with _ | l2
          · rw [hsc] at h; cases h
          · rw [hsc] at h
            simp only [Option.map_some', Option.some.injEq] at h
            subst h
            rcases List.mem_cons.mp hm with hm | hm
            · rw [hm]; exact h3
            · exact ih _ _ _ hsc hm
        · rw [if_neg h3] at h
          by_cases h0 : offset = 0
          · rw [if_pos h0] at h; cases h
          · rw [if_neg h0] at h
            exact ih _ _ _ h hm
    · rw [if_neg h1] at h
      cases h
      simp at hm

/-- The recorded offsets are strictly increasing and bounded below by the
starting offset. -/
theorem chunkScan_bounds (f : Nat) (data : List Nat) :
    ∀ (offset : Nat) (l : List Nat), chunkScan f data offset = some l →
      l.Chain' (· < ·) ∧ ∀ x ∈ l, offset ≤ x := by
  induction f with
  | zero =>
    intro offset l h
    simp only [chunkScan, Option.some.injEq] at h
    subst h
    exact ⟨List.chain'_nil, by simp⟩
  | succ g ih =>
    intro offset l h
    rw [chunkScan_succ] at h
    by_cases h1 : offset < data.length
    · rw [if_pos h1] at h
      by_cases h2 : data.length < offset + 16
      · rw [if_pos h2] at h
        cases h
        exact ⟨List.chain'_nil, by simp⟩
      · rw [if_neg h2] at h
        by_cases h3 : readU32 data offset = NFLC_MAGIC
        · rw [if_pos h3] at h
          rcases hsc : chunkScan g data (offset + 0x8000) with _ | l2
          · rw [hsc] at h; cases h
          · rw [hsc] at h
            simp only [Option.map_some', Option.some.injEq] at h
            subst h
            obtain ⟨hch, hbd⟩ := ih _ _ hsc
            constructor
            · rw [List.chain'_cons']
              refine ⟨?_, hch⟩
              intro y hy
              have hym : y ∈ l2 := List.mem_of_mem_head? hy
              have := hbd y hym
              omega
            · intro x hx
              rcases List.mem_cons.mp hx with hx | hx
              · omega
              · have := hbd x hx
                omega
        · rw [if_neg h3] at h
          by_cases h0 : offset = 0
          · rw [if_pos h0] at h; cases h
          · rw [if_neg h0] at h
            obtain ⟨hch, hbd⟩ := ih _ _ h
            refine ⟨hch, ?_⟩
            intro x hx
            have := hbd x hx
            omega
    · rw [if_neg h1] at h
      cases h
      exact ⟨List.chain'_nil, by simp⟩

/-- `buildChunks` records exactly the scanned offsets, in order. -/
theorem buildChunks_offsets (data : List Nat) :
    ∀ offs : List Nat, (buildChunks data offs).map (fun c => c.offset) = offs := by
  intro offs
  induction offs with
  | nil => rfl
  | cons o rest ih => simp [buildChunks, ih]

/-- `parseChunks` fails precisely on a too-small file or a signature mismatch
at offset 0; mismatches at later strides never cause failure. -/
theorem parseChunks_none_iff (data : List Nat) :
    parseChunks data = none ↔
      (data.length < 64 ∨ readU32 data 0 ≠ NFLC_MAGIC) := by
  unfold parseChunks
  by_cases h64 : data.length < 64
  · simp [h64]
  · rw [if_neg h64]
    by_cases hm : readU32 data 0 = NFLC_MAGIC
    · rw [chunkScan_succ]
      rw [if_pos (by omega), if_neg (by omega), if_pos hm]
      rcases hsc : chunkScan (data.length / 0x8000) data (0 + 0x8000) with _ | offs
      · exact absurd hsc (chunkScan_pos_ne_none _ _ _ (by omega))
      · simp [hm, h64]
    · rw [chunkScan_succ]
      rw [if_pos (by omega), if_neg (by omega), if_neg hm, if_pos rfl]
      simp [hm, h64]

/-- A successful parse yields a non-empty table whose every entry sits at a
matching signature. -/
theorem parseChunks_entries (data : List Nat) (l : List ChunkInfo)
    (h : parseChunks data = some l) :
    l ≠ [] ∧ ∀ c ∈ l, readU32 data c.offset = NFLC_MAGIC := by
  unfold parseChunks at h
  by_cases h64 : data.length < 64
  · rw [if_pos h64] at h; cases h
  · rw [if_neg h64] at h
    rcases hsc : chunkScan (data.length / 0x8000 + 1) data 0 with _ | offs
    · rw [hsc] at h; cases h
    · rw [hsc] at h
      cases offs with
      | nil => cases h
      | cons o rest =>
        cases h
        refine ⟨by simp [buildChunks], ?_⟩
        intro c hc
        have hoff : c.offset ∈ o :: rest := by
          have hmap := buildChunks_offsets data (o :: rest)
          rw [← hmap]
          exact List.mem_map_of_mem _ hc
        exact chunkScan_mem_magic _ data 0 (o :: rest) c.offset hsc hoff

/-- Reading a little-endian word at `k + i` is reading it at `i` of the
buffer with `k` bytes dropped. -/
theorem readU32_add (data : List Nat) (k i : Nat) :
    readU32 data (k + i) = readU32 (data.drop k) i := by
  unfold readU32
  simp [List.getD_eq_getElem?_getD, List.getElem?_drop, Nat.add_assoc]

end NFlC

/-- C1: the claim says every source-byte read is preceded by its bounds check
and a stream truncated mid-extension yields `INPUT_OVERRUN`.  The code instead
dereferences `*ip` at the entry of each zero-run extension loop before any
check: with the cursor at `src+srcLen` this is an out-of-bounds read
(`Res.FAULT` under the bounds-instrumented semantics).  The three inputs hit
the literal-run (line 125), M4 (line 200) and M3 (line 181) extension loops. -/
theorem c1_unchecked_extension_reads :
    LZO1X.decompress [0] 16 = (.FAULT, []) ∧
      LZO1X.decompress [16] 16 = (.FAULT, []) ∧
      LZO1X.decompress [18, 65, 32] 16 = (.FAULT, [65]) :=
  ⟨by decide, by decide, by decide⟩

/-- C2: decompress never writes outside the destination: the bytes written
always number at most `maxDstLen`; decoding into a destination exactly sized
to the true decompressed length still returns `OK` with the same output; a
destination one byte too small yields `OUTPUT_OVERRUN`, with everything
written still inside the smaller bound. -/
theorem c2_output_bounds :
    (∀ (src : List Nat) (cap : Nat), ((LZO1X.decompress src cap).2).length ≤ cap) ∧
      (∀ (src : List Nat) (cap : Nat) (o : List Nat),
        LZO1X.decompress src cap = (.OK, o) →
          LZO1X.decompress src o.length = (.OK, o)) ∧
      (∀ (src : List Nat) (cap : Nat) (o : List Nat),
        LZO1X.decompress src cap = (.OK, o) → 0 < o.length →
          (LZO1X.decompress src (o.length - 1)).1 = .OUTPUT_OVERRUN ∧
            ((LZO1X.decompress src (o.length - 1)).2).length ≤ o.length - 1) := by
  refine ⟨fun src cap => LZO1X.decompress_out_le src cap, ?_, ?_⟩
  · intro src cap o h
    have hle : o.length ≤ cap := by
      have h2 := LZO1X.decompress_out_le src cap
      rw [h] at h2
      exact h2
    exact LZO1X.run_cap_keep h hle (le_refl _)
  · intro src cap o h hpos
    have hle : o.length ≤ cap := by
      have h2 := LZO1X.decompress_out_le src cap
      rw [h] at h2
      exact h2
    refine ⟨LZO1X.run_cap_shrink h (by omega) (by simp) (by omega), ?_⟩
    exact LZO1X.decompress_out_le src (o.length - 1)

/-- Witness for C2 at the literal-run scenario stream: with capacity 14 (one
byte less than the 15-byte decompressed length) decoding reports
`OUTPUT_OVERRUN` and writes at most 14 bytes. -/
theorem c2_output_bounds_witness :
    (LZO1X.decompress demoStream 14).1 = .OUTPUT_OVERRUN ∧
      ((LZO1X.decompress demoStream 14).2).length ≤ 14 := by
  have h := c2_output_bounds.2.2 demoStream 100 demoOut (by decide) (by decide)
  have h15 : demoOut.length - 1 = 14 := by decide
  rw [h15] at h
  exact h

/-- C3: the claim (and reference LZO1X) says a trailing-literal count of 0
makes the decoder read the next input byte as a fresh control byte.  The code
instead breaks to the outer loop with the stale `t = 0` and re-enters the
literal-run branch, consuming the following bytes as a zero-run length
extension.  On `{21,'A','A','A','A',0x40,0x00,0x11,0x00,0x00}` - four
literals, an M2 match with trailing count 0, then the end-of-stream marker -
the intended decoding ends `OK` with 8 bytes, but the code treats `0x11` as a
length-extension byte and fails with `INPUT_OVERRUN`. -/
theorem c3_zero_trailing_divergence :
    LZO1X.decompress [21, 65, 65, 65, 65, 64, 0, 17, 0, 0] 64 =
      (.INPUT_OVERRUN, [65, 65, 65, 65, 65, 65, 65, 65]) := by decide

/-- C4 counterexample: an M4 match (control byte 17, distance bytes 8, 0) at
output offset 4 is not the end-of-stream sentinel, yet the position the code
copies from differs from the position the claim's formula gives - the code
additionally subtracts `0x4000` (line 216), so this small-offset match is a
`LOOKBEHIND_OVERRUN` where the claimed formula would name valid position 2. -/
theorem c4_m4_position_counterexample :
    ((16 : Nat) ≤ 17 ∧ (17 : Nat) < 32 ∧
      LZO1X.sub64 (LZO1X.m4Base 4 17) ((8 >>> 2) + (0 <<< 6)) ≠ 4) ∧
      LZO1X.m4MatchPos 4 17 8 0 ≠ LZO1X.m4SpecPos 4 17 8 0 ∧
      LZO1X.decompress [21, 65, 65, 65, 65, 17, 8, 0] 32 =
        (.LOOKBEHIND_OVERRUN, [65, 65, 65, 65]) :=
  ⟨⟨by decide, by decide, by decide⟩, by decide, by decide⟩

/-- C4 amended: for a non-sentinel M4 match the resolved source position is
the current output offset minus `(t & 8) << 11`, minus the two-byte distance
refinement `(next0 >> 2) + (next1 << 6)`, minus an additional `0x4000`
(64-bit wraparound subtraction; in the in-range case plain subtraction). -/
theorem c4_m4_position_amended :
    ∀ off t d0 d1 : Nat,
      ((t &&& 8) <<< 11) + ((d0 >>> 2) + (d1 <<< 6)) + 0x4000 ≤ off →
      off < 2 ^ 64 →
      LZO1X.m4MatchPos off t d0 d1 =
        off - (((t &&& 8) <<< 11) + ((d0 >>> 2) + (d1 <<< 6)) + 0x4000) := by
  intro off t d0 d1 h1 h2
  unfold LZO1X.m4MatchPos LZO1X.m4Base LZO1X.sub64
  have hp : (2 : Nat) ^ 64 = 18446744073709551616 := by norm_num
  simp only [hp]
  omega

/-- Witness for the amended C4 at offset `0x5000`: position
`0x5000 - 0 - 2 - 0x4000 = 0xFFE`. -/
theorem c4_m4_position_amended_witness :
    LZO1X.m4MatchPos 0x5000 17 8 0 = 0xFFE :=
  (c4_m4_position_amended 0x5000 17 8 0 (by decide) (by decide)).trans (by decide)

/-- C5: every match encoding (M1 after a literal run, M1 inside the match
loop, M2, M3 and non-sentinel M4) resolves its source position and runs it
through `matchCopy`, whose first check returns `LOOKBEHIND_OVERRUN` - with
the output untouched - whenever the position is not strictly below the
current output offset (the unsigned comparison also catches wrapped-around
"negative" distances).  The concrete stream exhibits it end to end. -/
theorem c5_lookbehind_guard :
    (∀ (cap ip : Nat) (out : List Nat) (pos n : Nat), out.length ≤ pos →
      LZO1X.matchCopy cap ip out pos n = .ret (.LOOKBEHIND_OVERRUN, out)) ∧
      LZO1X.decompress [18, 65, 64, 1] 16 = (.LOOKBEHIND_OVERRUN, [65]) := by
  constructor
  · intro cap ip out pos n h
    unfold LZO1X.matchCopy
    rw [if_pos h]
  · decide

/-- Witness for C5: a wrapped distance at concrete arguments is rejected with
the output unchanged. -/
theorem c5_lookbehind_guard_witness :
    LZO1X.matchCopy 8 5 [65, 66] 2 3 = .ret (.LOOKBEHIND_OVERRUN, [65, 66]) :=
  c5_lookbehind_guard.1 8 5 [65, 66] 2 3 (by decide)

/-- C6: the 19-byte stream `{0x20,'A'..'O',0x11,0x00,0x00}` decodes, for every
destination capacity of at least 15, to `OK` with exactly the 15 bytes
`"ABCDEFGHIJKLMNO"`. -/
theorem c6_literal_run_scenario :
    ∀ cap : Nat, 15 ≤ cap →
      LZO1X.decompress demoStream cap = (.OK, demoOut) ∧ demoOut.length = 15 := by
  intro cap hcap
  refine ⟨?_, by decide⟩
  have h : LZO1X.decompress demoStream 15 = (.OK, demoOut) := by decide
  unfold LZO1X.decompress at h ⊢
  exact LZO1X.run_cap_mono hcap h (by decide)

/-- Witness for C6 at the minimal capacity 15. -/
theorem c6_literal_run_scenario_witness :
    LZO1X.decompress demoStream 15 = (.OK, demoOut) ∧ demoOut.length = 15 :=
  c6_literal_run_scenario 15 (le_refl 15)

namespace NFlC

/-- The scan over a 65536-byte buffer with signatures at 0 and 32768 finds
exactly those two offsets. -/
theorem chunkScan_two (data : List Nat) (hlen : data.length = 65536)
    (h0 : readU32 data 0 = NFLC_MAGIC) (h1 : readU32 data 32768 = NFLC_MAGIC) :
    chunkScan 3 data 0 = some [0, 32768] := by
  rw [show (3 : Nat) = 2 + 1 from rfl, chunkScan_succ]
  rw [if_pos (by omega), if_neg (by omega), if_pos h0]
  rw [show (0 + 0x8000 : Nat) = 32768 from rfl]
  rw [show (2 : Nat) = 1 + 1 from rfl, chunkScan_succ]
  rw [if_pos (by omega), if_neg (by omega), if_pos h1]
  rw [show (32768 + 0x8000 : Nat) = 65536 from rfl]
  rw [show (1 : Nat) = 0 + 1 from rfl, chunkScan_succ]
  rw [if_neg (by omega : ¬(65536 : Nat) < data.length)]
  rfl

end NFlC

/-- C7: any 65536-byte buffer whose 4-byte signature matches at offsets 0 and
32768 parses to exactly the two-entry chunk table
`{offset 0, dataOffset 64, dataSize 32704}` then
`{offset 32768, dataOffset 32784, dataSize 32752}`, in that order. -/
theorem c7_parser_scenario :
    ∀ data : List Nat, data.length = 65536 →
      NFlC.readU32 data 0 = NFlC.NFLC_MAGIC →
      NFlC.readU32 data 32768 = NFlC.NFLC_MAGIC →
      (NFlC.parseChunks data).map
          (List.map fun c => (c.offset, c.dataOffset, c.dataSize)) =
        some [(0, 64, 32704), (32768, 32784, 32752)] := by
  intro data hlen h0 h1
  unfold NFlC.parseChunks
  rw [if_neg (by omega)]
  rw [show data.length / 0x8000 + 1 = 3 by rw [hlen]]
  rw [NFlC.chunkScan_two data hlen h0 h1]
  simp [NFlC.buildChunks, NFlC.dataOffsetOf, hlen]

/-- Witness for C7: the concrete 65536-byte buffer `c7buf`. -/
theorem c7_parser_scenario_witness :
    (NFlC.parseChunks c7buf).map
        (List.map fun c => (c.offset, c.dataOffset, c.dataSize)) =
      some [(0, 64, 32704), (32768, 32784, 32752)] := by
  have hd : List.drop 32768 c7buf = magic4 ++ List.replicate 32764 0 := by
    show List.drop 32768
        (magic4 ++ (List.replicate 32764 0 ++ (magic4 ++ List.replicate 32764 0))) =
      magic4 ++ List.replicate 32764 0
    rw [← List.append_assoc]
    refine List.drop_left' ?_
    rw [List.length_append, List.length_replicate]
    simp [magic4]
  apply c7_parser_scenario
  · show (magic4 ++ (List.replicate 32764 0 ++
        (magic4 ++ List.replicate 32764 0))).length = 65536
    rw [List.length_append, List.length_append, List.length_append,
      List.length_replicate]
    simp [magic4]
  · decide
  · rw [show (32768 : Nat) = 32768 + 0 from rfl, NFlC.readU32_add, hd]
    decide

/-- C8: the container parser fails exactly on a signature mismatch at offset
0 or an empty resulting table; equivalently, failure depends only on the
64-byte minimum and the offset-0 signature - a mismatch at any later stride
is skipped without failing and without adding an entry (every recorded entry
sits at a matching signature), and a successful parse never returns an empty
table. -/
theorem c8_parser_failure :
    (∀ data : List Nat,
      NFlC.parseChunks data = none ↔
        (NFlC.readU32 data 0 ≠ NFlC.NFLC_MAGIC ∨
          (NFlC.parseChunks data).getD [] = [])) ∧
      (∀ data : List Nat,
        NFlC.parseChunks data = none ↔
          (data.length < 64 ∨ NFlC.readU32 data 0 ≠ NFlC.NFLC_MAGIC)) ∧
      (∀ (data : List Nat) (l : List NFlC.ChunkInfo) (c : NFlC.ChunkInfo),
        NFlC.parseChunks data = some l → c ∈ l →
          l ≠ [] ∧ NFlC.readU32 data c.offset = NFlC.NFLC_MAGIC) := by
  refine ⟨?_, NFlC.parseChunks_none_iff, ?_⟩
  · intro data
    constructor
    · intro h
      right
      rw [h]
      rfl
    · intro h
      rcases h with h | h
      · exact (NFlC.parseChunks_none_iff data).mpr (Or.inr h)
      · rcases hp : NFlC.parseChunks data with _ | l
        · rfl
        · rw [hp] at h
          simp only [Option.getD_some] at h
          exact absurd h (NFlC.parseChunks_entries data l hp).1
  · intro data l c hl hc
    obtain ⟨hne, hmag⟩ := NFlC.parseChunks_entries data l hl
    exact ⟨hne, hmag c hc⟩

/-- Witness for C8 at the minimal 64-byte container `c8buf`: the parse
succeeds with the one-entry table, which is non-empty and whose entry sits at
the matching offset-0 signature. -/
theorem c8_parser_failure_witness :
    ([⟨0, 64, 0, 0, 0⟩] : List NFlC.ChunkInfo) ≠ [] ∧
      NFlC.readU32 c8buf ((⟨0, 64, 0, 0, 0⟩ : NFlC.ChunkInfo).offset) =
        NFlC.NFLC_MAGIC :=
  c8_parser_failure.2.2 c8buf [⟨0, 64, 0, 0, 0⟩] ⟨0, 64, 0, 0, 0⟩
    (by decide) (by decide)

/-- C9: reconstruction is the ordered cascade SingleBlock, ChunkedBlocks,
RawExtraction, returning the first non-empty result; and no produced size is
cross-checked against the header's `decompressedSize`: the container `c9buf`
(declared decompressed size 100, undecodable 16-byte payload) yields a
non-empty 16-byte result that is returned although it differs from the
declared size. -/
theorem c9_cascade_first_nonempty :
    (∀ data : List Nat,
      NFlC.decompress data =
        NFlC.firstNonEmpty
          [NFlC.decompressSingle data, NFlC.decompressChunked data,
            NFlC.extractRaw data]) ∧
      NFlC.decompress c9buf ≠ [] ∧
      (NFlC.decompress c9buf).length ≠ NFlC.mainDecompressedSize c9buf := by
  refine ⟨?_, by decide, by decide⟩
  intro data
  unfold NFlC.decompress
  by_cases h1 : NFlC.decompressSingle data = []
  · by_cases h2 : NFlC.decompressChunked data = []
    · by_cases h3 : NFlC.extractRaw data = []
      · simp [h1, h2, h3, NFlC.firstNonEmpty]
      · simp [h1, h2, h3, NFlC.firstNonEmpty]
    · simp [h1, h2, NFlC.firstNonEmpty]
  · simp [h1, NFlC.firstNonEmpty]

namespace LZO1X

theorem step_start_bigLit {src : List Nat} {cap ip t0 : Nat} {out : List Nat}
    (hget : src.get? ip = some t0) (hz : ¬src.length = 0) (h17 : 17 < t0)
    (h4 : ¬t0 - 17 < 4) (hcap : ¬cap < out.length + (t0 - 17))
    (hin : ¬src.length < ip + 1 + (t0 - 17)) :
    step src cap ⟨.start, ip, out⟩ =
      .cont ⟨.firstLit, ip + 1 + (t0 - 17),
        out ++ (src.drop (ip + 1)).take (t0 - 17)⟩ := by
  simp only [step, hget, if_neg hz, if_pos h17, if_neg h4, if_neg hcap, if_neg hin]

theorem step_start_small {src : List Nat} {cap ip t0 : Nat} {out : List Nat}
    (hget : src.get? ip = some t0) (hz : ¬src.length = 0) (h17 : ¬17 < t0) :
    step src cap ⟨.start, ip, out⟩ = .cont ⟨.top t0, ip + 1, out⟩ := by
  simp only [step, hget, if_neg hz, if_neg h17]

theorem step_firstLit_match {src : List Nat} {cap ip t : Nat} {out : List Nat}
    (hget : src.get? ip = some t) (h16 : ¬t < 16) :
    step src cap ⟨.firstLit, ip, out⟩ = .cont ⟨.inMatch t, ip + 1, out⟩ := by
  simp only [step, hget, if_neg h16]

theorem step_inMatch_m4d {src : List Nat} {cap ip t : Nat} {out : List Nat}
    (h64 : ¬64 ≤ t) (h32 : ¬32 ≤ t) (h16 : 16 ≤ t) (h7 : ¬t &&& 7 = 0) :
    step src cap ⟨.inMatch t, ip, out⟩ =
      m4Rest src cap out t ((t &&& 7) + 2) ip := by
  simp only [step, if_neg h64, if_neg h32, if_pos h16, if_neg h7]

theorem m4Rest_sentinel {src : List Nat} {cap : Nat} {out : List Nat}
    {t n ip2 : Nat} (hin : ¬src.length < ip2 + 2)
    (hs : sub64 (m4Base out.length t)
      ((src.getD ip2 0 >>> 2) + (src.getD (ip2 + 1) 0 <<< 6)) = out.length) :
    m4Rest src cap out t n ip2 = .ret (.OK, out) := by
  unfold m4Rest
  rw [if_neg hin, if_pos hs]

theorem step_top_scan_overrun {src : List Nat} {cap ip : Nat} {out : List Nat}
    (h : scanCore (src.drop ip) 0 ip = .overrun) :
    step src cap ⟨.top 0, ip, out⟩ = .ret (.INPUT_OVERRUN, out) := by
  simp only [step, if_pos (by norm_num : (0 : Nat) < 16), if_pos rfl, h]
  rw [if_pos trivial]

/-- Decoding the zero-padded chunk-0 payload of the degradation scenario:
the valid leading stream decodes to 15 times `'A'` and the sentinel stops
before the padding. -/
theorem c10_chunk0_decode :
    decompress (c10p0 ++ List.replicate 32685 0) 65536 =
      (.OK, List.replicate 15 65) := by
  have hlen0 : (c10p0 ++ List.replicate 32685 0).length = 32704 := by
    rw [List.length_append, List.length_replicate]
    simp [c10p0]
  have hA : step (c10p0 ++ List.replicate 32685 0) 65536 ⟨.start, 0, []⟩ =
      .cont ⟨.firstLit, 0 + 1 + (32 - 17),
        [] ++ ((c10p0 ++ List.replicate 32685 0).drop (0 + 1)).take (32 - 17)⟩ :=
    step_start_bigLit rfl (by omega) (by norm_num) (by norm_num) (by decide)
      (by rw [hlen0]; norm_num)
  have hdt : ((c10p0 ++ List.replicate 32685 0).drop (0 + 1)).take (32 - 17) =
      List.replicate 15 65 := by
    have hstep : (c10p0 ++ List.replicate 32685 0).drop (0 + 1) =
        (List.replicate 15 65 ++ [17, 0, 0]) ++ List.replicate 32685 0 := rfl
    rw [hstep, List.append_assoc]
    exact List.take_left' (List.length_replicate _ _)
  have hB : step (c10p0 ++ List.replicate 32685 0) 65536
      ⟨.firstLit, 16, List.replicate 15 65⟩ =
      .cont ⟨.inMatch 17, 17, List.replicate 15 65⟩ :=
    step_firstLit_match rfl (by norm_num)
  have hC : step (c10p0 ++ List.replicate 32685 0) 65536
      ⟨.inMatch 17, 17, List.replicate 15 65⟩ =
      .ret (.OK, List.replicate 15 65) := by
    rw [step_inMatch_m4d (by norm_num) (by norm_num) (by norm_num) (by decide)]
    refine m4Rest_sentinel (by rw [hlen0]; norm_num) ?_
    have h17 : (c10p0 ++ List.replicate 32685 0).getD 17 0 = 0 := rfl
    have h18 : (c10p0 ++ List.replicate 32685 0).getD (17 + 1) 0 = 0 := rfl
    rw [h17, h18]
    decide
  have hrun : run 3 (c10p0 ++ List.replicate 32685 0) 65536 ⟨.start, 0, []⟩ =
      (.OK, List.replicate 15 65) := by
    rw [show (3 : Nat) = 2 + 1 from rfl, run_cont hA, hdt]
    rw [show (0 + 1 + (32 - 17) : Nat) = 16 from rfl, List.nil_append]
    rw [show (2 : Nat) = 1 + 1 from rfl, run_cont hB]
    rw [show (1 : Nat) = 0 + 1 from rfl, run_ret hC]
  unfold decompress
  rw [hlen0]
  exact run_mono hrun (by decide) (by norm_num)

/-- Decoding the all-zero chunk-1 payload fails with `INPUT_OVERRUN`. -/
theorem c10_chunk1_decode :
    decompress (List.replicate 32752 0) 65536 = (.INPUT_OVERRUN, []) := by
  have hlen1 : (List.replicate 32752 (0 : Nat)).length = 32752 :=
    List.length_replicate _ _
  have hD : step (List.replicate 32752 0) 65536 ⟨.start, 0, []⟩ =
      .cont ⟨.top 0, 0 + 1, []⟩ :=
    step_start_small rfl (by omega) (by norm_num)
  have hE : step (List.replicate 32752 0) 65536 ⟨.top 0, 0 + 1, []⟩ =
      .ret (.INPUT_OVERRUN, []) := by
    refine step_top_scan_overrun ?_
    have hdr : (List.replicate 32752 (0 : Nat)).drop (0 + 1) =
        List.replicate (32750 + 1) 0 := rfl
    rw [hdr]
    exact scanCore_replicate 32750 0 (0 + 1)
  have hrun : run 2 (List.replicate 32752 0) 65536 ⟨.start, 0, []⟩ =
      (.INPUT_OVERRUN, []) := by
    rw [show (2 : Nat) = 1 + 1 from rfl, run_cont hD]
    rw [show (1 : Nat) = 0 + 1 from rfl, run_ret hE]
  unfold decompress
  rw [hlen1]
  exact run_mono hrun (by decide) (by norm_num)

/-- Decoding the chunk-2 payload yields 15 times `'B'`. -/
theorem c10_chunk2_decode :
    decompress c10p2 65536 = (.OK, List.replicate 15 66) := by decide

end LZO1X

namespace NFlC

/-- The chunked loop is the concatenation of the per-chunk contributions, in
table order: each chunk is decoded independently and a failure only affects
its own segment. -/
theorem chunkedGo_eq_flatten (data : List Nat) :
    ∀ cs : List ChunkInfo,
      chunkedGo data cs = (cs.map (chunkContrib data)).flatten := by
  intro cs
  induction cs with
  | nil => rfl
  | cons c rest ih =>
    simp only [chunkedGo, chunkContrib, List.map_cons, List.flatten_cons, ih]

/-- The chunk table is ordered by strictly ascending file offset. -/
theorem chunksOf_ascending (data : List Nat) :
    ((chunksOf data).map (fun c => c.offset)).Chain' (· < ·) := by
  unfold chunksOf
  rcases hp : parseChunks data with _ | l
  · simp
  · unfold parseChunks at hp
    by_cases h64 : data.length < 64
    · rw [if_pos h64] at hp; cases hp
    · rw [if_neg h64] at hp
      rcases hsc : chunkScan (data.length / 0x8000 + 1) data 0 with _ | offs
      · rw [hsc] at hp; cases hp
      · rw [hsc] at hp
        cases offs with
        | nil => cases hp
        | cons o rest =>
          cases hp
          simp only [Option.getD_some]
          rw [buildChunks_offsets]
          exact (chunkScan_bounds _ data 0 (o :: rest) hsc).1

end NFlC

-- Block-by-block drop decomposition of `c10buf`.

theorem c10buf_drop64 :
    c10buf.drop 64 =
      (c10p0 ++ List.replicate 32685 0) ++
        ((magic4 ++ List.replicate 12 0) ++
          (List.replicate 32752 0 ++
            ((magic4 ++ List.replicate 12 0) ++ c10p2))) := by
  unfold c10buf
  refine List.drop_left' ?_
  rw [List.length_append, List.length_replicate]
  simp [magic4]

theorem c10p0_length : c10p0.length = 19 := by
  simp [c10p0]

theorem c10p2_length : c10p2.length = 19 := by
  simp [c10p2]

theorem c10buf_drop32768 :
    c10buf.drop 32768 =
      (magic4 ++ List.replicate 12 0) ++
        (List.replicate 32752 0 ++
          ((magic4 ++ List.replicate 12 0) ++ c10p2)) := by
  rw [show (32768 : Nat) = 64 + 32704 from rfl, ← List.drop_drop, c10buf_drop64]
  refine List.drop_left' ?_
  rw [List.length_append, List.length_replicate, c10p0_length]

theorem c10buf_drop32784 :
    c10buf.drop 32784 =
      List.replicate 32752 0 ++ ((magic4 ++ List.replicate 12 0) ++ c10p2) := by
  rw [show (32784 : Nat) = 32768 + 16 from rfl, ← List.drop_drop, c10buf_drop32768]
  refine List.drop_left' ?_
  rw [List.length_append, List.length_replicate]
  simp [magic4]

theorem c10buf_drop65536 :
    c10buf.drop 65536 = (magic4 ++ List.replicate 12 0) ++ c10p2 := by
  rw [show (65536 : Nat) = 32784 + 32752 from rfl, ← List.drop_drop, c10buf_drop32784]
  exact List.drop_left' (List.length_replicate _ _)

theorem c10buf_drop65552 : c10buf.drop 65552 = c10p2 := by
  rw [show (65552 : Nat) = 65536 + 16 from rfl, ← List.drop_drop, c10buf_drop65536]
  refine List.drop_left' ?_
  rw [List.length_append, List.length_replicate]
  simp [magic4]

theorem c10buf_length : c10buf.length = 65571 := by
  unfold c10buf
  simp only [List.length_append, List.length_replicate, c10p0_length,
    c10p2_length]
  simp [magic4]

theorem c10buf_magic0 : NFlC.readU32 c10buf 0 = NFlC.NFLC_MAGIC := by decide

theorem c10buf_magic32768 : NFlC.readU32 c10buf 32768 = NFlC.NFLC_MAGIC := by
  rw [show (32768 : Nat) = 32768 + 0 from rfl, NFlC.readU32_add, c10buf_drop32768]
  decide

theorem c10buf_magic65536 : NFlC.readU32 c10buf 65536 = NFlC.NFLC_MAGIC := by
  rw [show (65536 : Nat) = 65536 + 0 from rfl, NFlC.readU32_add, c10buf_drop65536]
  decide

theorem c10buf_ver0 : NFlC.readU32 c10buf (0 + 4) = 0 := by decide

theorem c10buf_ver1 : NFlC.readU32 c10buf (32768 + 4) = 0 := by
  rw [NFlC.readU32_add, c10buf_drop32768]
  decide

theorem c10buf_ver2 : NFlC.readU32 c10buf (65536 + 4) = 0 := by
  rw [NFlC.readU32_add, c10buf_drop65536]
  decide

theorem c10buf_scan :
    NFlC.chunkScan 3 c10buf 0 = some [0, 32768, 65536] := by
  have hlen := c10buf_length
  rw [show (3 : Nat) = 2 + 1 from rfl, NFlC.chunkScan_succ]
  rw [if_pos (by omega), if_neg (by omega), if_pos c10buf_magic0]
  rw [show (0 + 0x8000 : Nat) = 32768 from rfl]
  rw [show (2 : Nat) = 1 + 1 from rfl, NFlC.chunkScan_succ]
  rw [if_pos (by omega), if_neg (by omega), if_pos c10buf_magic32768]
  rw [show (32768 + 0x8000 : Nat) = 65536 from rfl]
  rw [show (1 : Nat) = 0 + 1 from rfl, NFlC.chunkScan_succ]
  rw [if_pos (by omega), if_neg (by omega), if_pos c10buf_magic65536]
  rfl

theorem buildChunks_three (data : List Nat) (a b c : Nat) :
    NFlC.buildChunks data [a, b, c] =
      [⟨a, NFlC.dataOffsetOf a, b - NFlC.dataOffsetOf a,
         (NFlC.readU32 data (a + 4) >>> 8) &&& 0xFFFF, NFlC.readU32 data (a + 4)⟩,
       ⟨b, NFlC.dataOffsetOf b, c - NFlC.dataOffsetOf b,
         (NFlC.readU32 data (b + 4) >>> 8) &&& 0xFFFF, NFlC.readU32 data (b + 4)⟩,
       ⟨c, NFlC.dataOffsetOf c, data.length - NFlC.dataOffsetOf c,
         (NFlC.readU32 data (c + 4) >>> 8) &&& 0xFFFF, NFlC.readU32 data (c + 4)⟩] := rfl

theorem c10buf_parse :
    NFlC.parseChunks c10buf =
      some [⟨0, 64, 32704, 0, 0⟩, ⟨32768, 32784, 32752, 0, 0⟩,
        ⟨65536, 65552, 19, 0, 0⟩] := by
  have hlen := c10buf_length
  unfold NFlC.parseChunks
  rw [if_neg (by omega)]
  rw [show c10buf.length / 0x8000 + 1 = 3 by rw [hlen]]
  rw [c10buf_scan]
  show some (NFlC.buildChunks c10buf [0, 32768, 65536]) = _
  rw [buildChunks_three, c10buf_ver0, c10buf_ver1, c10buf_ver2, hlen]
  norm_num [NFlC.dataOffsetOf]

theorem c10buf_chunks :
    NFlC.chunksOf c10buf =
      [⟨0, 64, 32704, 0, 0⟩, ⟨32768, 32784, 32752, 0, 0⟩,
        ⟨65536, 65552, 19, 0, 0⟩] := by
  unfold NFlC.chunksOf
  rw [c10buf_parse]
  rfl

-- The three chunk payload slices of `c10buf`.

theorem c10buf_slice0 :
    (c10buf.drop 64).take 32704 = c10p0 ++ List.replicate 32685 0 := by
  rw [c10buf_drop64]
  refine List.take_left' ?_
  rw [List.length_append, List.length_replicate, c10p0_length]

theorem c10buf_slice1 :
    (c10buf.drop 32784).take 32752 = List.replicate 32752 0 := by
  rw [c10buf_drop32784]
  exact List.take_left' (List.length_replicate _ _)

theorem c10buf_slice2 : (c10buf.drop 65552).take 19 = c10p2 := by
  rw [c10buf_drop65552, ← c10p2_length, List.take_length]

-- Per-chunk contributions on `c10buf`: chunk 0 and chunk 2 decompress, the
-- corrupt chunk 1 falls back to its raw payload.

theorem c10_contrib0 :
    NFlC.chunkContrib c10buf ⟨0, 64, 32704, 0, 0⟩ = List.replicate 15 65 := by
  unfold NFlC.chunkContrib
  dsimp only
  rw [if_neg (by rw [c10buf_length]; norm_num)]
  rw [show (2 * 0x8000 : Nat) = 65536 from rfl]
  rw [c10buf_slice0, LZO1X.c10_chunk0_decode]
  rw [if_pos ⟨rfl, by norm_num⟩]

theorem c10_contrib1 :
    NFlC.chunkContrib c10buf ⟨32768, 32784, 32752, 0, 0⟩ =
      List.replicate 32752 0 := by
  unfold NFlC.chunkContrib
  dsimp only
  rw [if_neg (by rw [c10buf_length]; norm_num)]
  rw [show (2 * 0x8000 : Nat) = 65536 from rfl]
  rw [c10buf_slice1, LZO1X.c10_chunk1_decode]
  rw [if_neg (by decide)]

theorem c10_contrib2 :
    NFlC.chunkContrib c10buf ⟨65536, 65552, 19, 0, 0⟩ =
      List.replicate 15 66 := by
  unfold NFlC.chunkContrib
  dsimp only
  rw [if_neg (by rw [c10buf_length]; norm_num)]
  rw [show (2 * 0x8000 : Nat) = 65536 from rfl]
  rw [c10buf_slice2, LZO1X.c10_chunk2_decode]
  rw [if_pos ⟨rfl, by norm_num⟩]

/-- C10: chunked reconstruction processes the table in ascending offset order
and is the concatenation of independent per-chunk contributions (decompressed
bytes when decoding succeeds with positive length, the raw payload otherwise);
on a concrete three-chunk file whose middle chunk is undecodable, the output
keeps both neighbouring chunks correctly decompressed around the raw fallback
of the bad one. -/
theorem c10_chunked_local_degradation :
    (∀ data : List Nat,
        NFlC.decompressChunked data =
          ((NFlC.chunksOf data).map (NFlC.chunkContrib data)).flatten) ∧
    (∀ data : List Nat,
        ((NFlC.chunksOf data).map (fun c => c.offset)).Chain' (· < ·)) ∧
    NFlC.decompressChunked c10buf =
      List.replicate 15 65 ++ (List.replicate 32752 0 ++ List.replicate 15 66) := by
  refine ⟨fun data => NFlC.chunkedGo_eq_flatten data (NFlC.chunksOf data),
    NFlC.chunksOf_ascending, ?_⟩
  unfold NFlC.decompressChunked
  rw [NFlC.chunkedGo_eq_flatten, c10buf_chunks]
  simp only [List.map_cons, List.map_nil, List.flatten_cons, List.flatten_nil,
    c10_contrib0, c10_contrib1, c10_contrib2, List.append_nil]
